import Mathlib

/-!
Verification of the per-key debounce state machine and scan driver of a
4x4 keypad firmware (`keytest.cpp`).  The mutable C state
(`keystates[row][col]`, `lockout[row][col]`) is embedded as a pure
`Cell` value per key; the body of `loop()` for one cell becomes the pure
function `cellStep`, and the whole double scan loop becomes `loopStep`,
a sequential pass over the column-major visit list `scanPairs`.
-/

namespace KeyTest

/-- Source constant `#define LOCKOUT_SCANS 400`: the number of complete
scans for which a key transition is ignored after the first.  The step
functions below take the lockout length `LS` as an explicit parameter so
that properties hold for any configured value; this definition records
the value used in the source. -/
def LOCKOUT_SCANS : Nat := 400

/-- Source constant `#define NUM_COLUMNS 4`. -/
def NUM_COLUMNS : Nat := 4

/-- Source constant `#define NUM_ROWS 4`. -/
def NUM_ROWS : Nat := 4

/-- The four states of the per-key finite state machine
(`KEYSTATE_WAIT_PRESS` .. `KEYSTATE_RELEASE_LOCKOUT`). -/
inductive KeyState where
  | wait_press
  | press_lockout
  | wait_release
  | release_lockout
deriving DecidableEq

/-- The per-key mutable data of the firmware: the entry of `keystates`
and the entry of `lockout` for one (row, column) cell.  The `lockout`
counter is a `uint16_t` in the source; its value is only ever set to
`LOCKOUT_SCANS` or decremented toward zero, so for the source's value
`LOCKOUT_SCANS = 400` the 16-bit width is never exercised and `Nat` is a
faithful embedding. -/
structure Cell where
  state : KeyState
  lockout : Nat
deriving DecidableEq

/-- Initial per-key state, from `setup()`:
`memset (keystates, KEYSTATE_WAIT_PRESS, ...)` and `memset (lockout, 0, ...)`. -/
def cellInit : Cell := ⟨KeyState.wait_press, 0⟩

/-- The `keysyms` matrix of the source, as a lookup function
(row-indexed outer, column-indexed inner; out-of-range indices, which
the driver never produces, give a dummy symbol). -/
def keysyms (row col : Nat) : Char :=
  (([['1', '2', '3', 'A'],
     ['4', '5', '6', 'B'],
     ['7', '8', '9', 'C'],
     ['*', '0', '#', 'D']].getD row []).getD col '?')

/-- Pure embedding of `keytest_do_row_col` for one cell.  Input: the
cell's `oldstate` (`keystates[row][col]`), the current value of
`lockout[row][col]`, and the two boolean arguments `pressed` and
`timeout`.  Output: the new value written to `keystates[row][col]`, the
value of `lockout[row][col]` after the call (set to `LS` on the two
emitting branches, otherwise untouched), and the event passed to
`keytest_emit` (`some true` = press, `some false` = release, `none` =
no emission).  Note the `KEYSTATE_WAIT_RELEASE` case of the C `switch`:
when `pressed` is true its `if` body is skipped and control falls
through into the `KEYSTATE_RELEASE_LOCKOUT` case's timeout check, which
is reproduced here by the inner `if timeout` in the `wait_release`
branch. -/
def keytest_do_row_col (LS : Nat) (oldstate : KeyState) (lockout : Nat)
    (pressed timeout : Bool) : KeyState × Nat × Option Bool :=
  match oldstate with
  | KeyState.wait_press =>
      if pressed then
        (KeyState.press_lockout, LS, some true)
      else
        (oldstate, lockout, none)
  | KeyState.press_lockout =>
      (if timeout then KeyState.wait_release else oldstate, lockout, none)
  | KeyState.wait_release =>
      if !pressed then
        (KeyState.release_lockout, LS, some false)
      else
        (if timeout then KeyState.wait_press else oldstate, lockout, none)
  | KeyState.release_lockout =>
      (if timeout then KeyState.wait_press else oldstate, lockout, none)

/-- The per-cell body of the inner loop of `loop()`:
`l = lockout[row][col]; keytest_do_row_col (row, col, pressed, l == 1);
if (l > 0) { l--; lockout[row][col] = l; }`.  The decrement uses the
value `l` read before the call, so if `l > 0` it overwrites whatever
the call wrote into `lockout[row][col]`. -/
def cellStep (LS : Nat) (c : Cell) (pressed : Bool) : Cell × Option Bool :=
  let l := c.lockout
  let r := keytest_do_row_col LS c.state l pressed (decide (l = 1))
  (⟨r.1, if 0 < l then l - 1 else r.2.1⟩, r.2.2)

/-- Trajectory of one cell under the scan loop: `cellTraj LS q c n` is
the cell after `n` scan cycles starting from `c`, where `q k` is the
logical pressed reading supplied on cycle `k`. -/
def cellTraj (LS : Nat) (q : Nat → Bool) (c : Cell) : Nat → Cell
  | 0 => c
  | n + 1 => (cellStep LS (cellTraj LS q c n) (q n)).1

/-- The event (if any) emitted for the cell on scan cycle `n`. -/
def cellEv (LS : Nat) (q : Nat → Bool) (c : Cell) (n : Nat) : Option Bool :=
  (cellStep LS (cellTraj LS q c n) (q n)).2

/-- The sequence of events emitted for one cell over a finite list of
per-cycle pressed readings. -/
def runEvents (LS : Nat) : Cell → List Bool → List Bool
  | _, [] => []
  | c, p :: ps =>
      (cellStep LS c p).2.toList ++ runEvents LS (cellStep LS c p).1 ps

/-- `altFrom b es` holds when the event list `es` strictly alternates
starting with the event `b` (`true` = press, `false` = release). -/
def altFrom : Bool → List Bool → Bool
  | _, [] => true
  | b, e :: es => (e == b) && altFrom (!b) es

/-- The polarity of the next event a cell in the given state can emit:
`wait_press` and `release_lockout` lead to a press, `press_lockout` and
`wait_release` lead to a release. -/
def nextEv : KeyState → Bool
  | KeyState.wait_press => true
  | KeyState.press_lockout => false
  | KeyState.wait_release => false
  | KeyState.release_lockout => true

/-- Reachability invariant of one cell: outside the two lockout states
the lockout counter is zero. -/
def Winv (c : Cell) : Prop :=
  (c.state = KeyState.wait_press ∨ c.state = KeyState.wait_release) →
    c.lockout = 0

/-- The state a lockout state times out into. -/
def lockExit : KeyState → KeyState
  | KeyState.press_lockout => KeyState.wait_release
  | KeyState.release_lockout => KeyState.wait_press
  | s => s

/-- The whole key matrix: the pair of C arrays `keystates` and
`lockout`, as a function from (row, column) to the cell data.  Indices
outside the 4x4 range are never touched by the driver. -/
abbrev Grid := Nat → Nat → Cell

/-- Initial grid, from `setup()`. -/
def gridInit : Grid := fun _ _ => cellInit

/-- Write one cell of the grid (the assignments
`keystates[row][col] = newstate` and `lockout[row][col] = l`). -/
def updateGrid (g : Grid) (row col : Nat) (c : Cell) : Grid :=
  fun r k => if r = row ∧ k = col then c else g r k

/-- The (column, row) visit order of `loop()`: the outer `for` walks
columns `0 .. NUM_COLUMNS-1`, the inner `for` walks rows
`0 .. NUM_ROWS-1`. -/
def scanPairs : List (Nat × Nat) :=
  (List.range NUM_COLUMNS).flatMap fun col =>
    (List.range NUM_ROWS).map fun row => (col, row)

/-- Sequential execution of the loop body over a list of (column, row)
pairs: each visit reads the cell, runs `cellStep` on the logical
pressed value `!v` (the raw active-low reading `v` is inverted by
`loop()` at the call `keytest_do_row_col (row, col, !v, l == 1)`),
writes the cell back, and appends the emitted event, tagged with
`keysyms[row][col]`, to the event stream. -/
def runPairs (LS : Nat) (v : Nat → Nat → Bool) :
    List (Nat × Nat) → Grid → Grid × List (Char × Bool)
  | [], g => (g, [])
  | p :: ps, g =>
      let r := cellStep LS (g p.2 p.1) (!(v p.2 p.1))
      let rest := runPairs LS v ps (updateGrid g p.2 p.1 r.1)
      (rest.1, (r.2.map fun b => (keysyms p.2 p.1, b)).toList ++ rest.2)

/-- One invocation of `loop()`: a full scan cycle over all cells, in
the fixed column-major order, given the raw active-low row readings
`v row col` observed during this cycle. -/
def loopStep (LS : Nat) (g : Grid) (v : Nat → Nat → Bool) :
    Grid × List (Char × Bool) :=
  runPairs LS v scanPairs g

/-- Grid trajectory: the grid after `n` invocations of `loop()`, where
`vs k` gives the raw readings of cycle `k`. -/
def gridTraj (LS : Nat) (vs : Nat → Nat → Nat → Bool) (g : Grid) : Nat → Grid
  | 0 => g
  | n + 1 => (loopStep LS (gridTraj LS vs g n) (vs n)).1

/-- The per-cycle event lists produced by repeated invocations of
`loop()` over a finite list of raw-reading frames. -/
def runLoop (LS : Nat) : Grid → List (Nat → Nat → Bool) → List (List (Char × Bool))
  | _, [] => []
  | g, v :: vs => (loopStep LS g v).2 :: runLoop LS (loopStep LS g v).1 vs

/-- Scenario A pressed sequence for cell (0,0). -/
def scenarioApressed : List Bool :=
  [true, false, true, false, false, false, false]

/-- Scenario A raw-reading frames: cell (0,0) follows the pressed
sequence (raw reading is its negation, active-low), every other cell
reads `true` (up) throughout. -/
def scenarioAframes : List (Nat → Nat → Bool) :=
  scenarioApressed.map fun b => fun r c => if r = 0 ∧ c = 0 then !b else true

/-- Modelled from the spec: the §4.2 transition table as written
(rows `WaitingForPress`, `PressLockout`, `WaitingForRelease`,
`ReleaseLockout`), amended in the `WaitingForRelease` row so that with
`pressedNow` true the state moves to `WaitingForPress` exactly when
`timedOut` (the fall-through of the C `switch`), nothing being emitted
and the counter untouched. -/
def specTransition (LS : Nat) (st : KeyState) (lock : Nat)
    (pressedNow timedOut : Bool) : KeyState × Nat × Option Bool :=
  match st with
  | KeyState.wait_press =>
      if pressedNow then (KeyState.press_lockout, LS, some true)
      else (st, lock, none)
  | KeyState.press_lockout =>
      if timedOut then (KeyState.wait_release, lock, none)
      else (st, lock, none)
  | KeyState.wait_release =>
      if !pressedNow then (KeyState.release_lockout, LS, some false)
      else if timedOut then (KeyState.wait_press, lock, none)
      else (st, lock, none)
  | KeyState.release_lockout =>
      if timedOut then (KeyState.wait_press, lock, none)
      else (st, lock, none)

/-! ## Closed forms of the per-cell step -/

theorem cellStep_wait_press (LS l : Nat) (p : Bool) :
    cellStep LS ⟨KeyState.wait_press, l⟩ p =
      if p then (⟨KeyState.press_lockout, if 0 < l then l - 1 else LS⟩, some true)
      else (⟨KeyState.wait_press, l - 1⟩, none) := by
  cases p <;> simp [cellStep, keytest_do_row_col] <;> omega

theorem cellStep_press_lockout (LS l : Nat) (p : Bool) :
    cellStep LS ⟨KeyState.press_lockout, l⟩ p =
      (⟨if l = 1 then KeyState.wait_release else KeyState.press_lockout, l - 1⟩,
        none) := by
  by_cases h : l = 1 <;> simp [cellStep, keytest_do_row_col, h] <;> omega

theorem cellStep_wait_release (LS l : Nat) (p : Bool) :
    cellStep LS ⟨KeyState.wait_release, l⟩ p =
      if p then
        (⟨if l = 1 then KeyState.wait_press else KeyState.wait_release, l - 1⟩,
          none)
      else (⟨KeyState.release_lockout, if 0 < l then l - 1 else LS⟩, some false) := by
  cases p <;> by_cases h : l = 1 <;>
    simp [cellStep, keytest_do_row_col, h] <;> omega

theorem cellStep_release_lockout (LS l : Nat) (p : Bool) :
    cellStep LS ⟨KeyState.release_lockout, l⟩ p =
      (⟨if l = 1 then KeyState.wait_press else KeyState.release_lockout, l - 1⟩,
        none) := by
  by_cases h : l = 1 <;> simp [cellStep, keytest_do_row_col, h] <;> omega

/-! ## The reachability invariant -/

theorem winv_init : Winv cellInit := by
  intro _; rfl

theorem winv_step (LS : Nat) (c : Cell) (p : Bool) (h : Winv c) :
    Winv (cellStep LS c p).1 := by
  obtain ⟨s, l⟩ := c
  cases s
  · have hl : l = 0 := h (Or.inl rfl)
    subst hl
    rw [cellStep_wait_press]
    cases p <;> simp [Winv]
  · rw [cellStep_press_lockout]
    by_cases hl : l = 1 <;> simp [Winv, hl]
  · have hl : l = 0 := h (Or.inr rfl)
    subst hl
    rw [cellStep_wait_release]
    cases p <;> simp [Winv]
  · rw [cellStep_release_lockout]
    by_cases hl : l = 1 <;> simp [Winv, hl]

theorem winv_traj (LS : Nat) (q : Nat → Bool) (c : Cell) (h : Winv c) :
    ∀ n, Winv (cellTraj LS q c n)
  | 0 => h
  | n + 1 => winv_step LS _ (q n) (winv_traj LS q c h n)

/-! ## Countdown lemmas for the lockout states -/

theorem traj_countdown (LS : Nat) (q : Nat → Bool) (s : KeyState)
    (hs : s = KeyState.press_lockout ∨ s = KeyState.release_lockout)
    (m : Nat) (hm : 1 ≤ m) :
    ∀ j, j ≤ m - 1 → cellTraj LS q ⟨s, m⟩ j = ⟨s, m - j⟩ := by
  intro j
  induction j with
  | zero => intro _; simp [cellTraj]
  | succ j ih =>
      intro hj
      have hj' : j ≤ m - 1 := by omega
      have hne : ¬ (m - j = 1) := by omega
      show (cellStep LS (cellTraj LS q ⟨s, m⟩ j) (q j)).1 = _
      rw [ih hj']
      rcases hs with rfl | rfl
      · rw [cellStep_press_lockout]
        simp [hne]
        omega
      · rw [cellStep_release_lockout]
        simp [hne]
        omega

theorem traj_lock_exit (LS : Nat) (q : Nat → Bool) (s : KeyState)
    (hs : s = KeyState.press_lockout ∨ s = KeyState.release_lockout)
    (m : Nat) (hm : 1 ≤ m) :
    cellTraj LS q ⟨s, m⟩ m = ⟨lockExit s, 0⟩ := by
  obtain ⟨m', rfl⟩ : ∃ m', m = m' + 1 := ⟨m - 1, by omega⟩
  show (cellStep LS (cellTraj LS q ⟨s, m' + 1⟩ m') (q m')).1 = _
  rw [traj_countdown LS q s hs (m' + 1) hm m' (by omega)]
  have : m' + 1 - m' = 1 := by omega
  rw [this]
  rcases hs with rfl | rfl
  · rw [cellStep_press_lockout]; simp [lockExit]
  · rw [cellStep_release_lockout]; simp [lockExit]

/-- Shifting the trajectory by one cycle. -/
theorem cellTraj_shift (LS : Nat) (q : Nat → Bool) (c : Cell) :
    ∀ n, cellTraj LS q c (n + 1) =
      cellTraj LS (fun i => q (i + 1)) (cellStep LS c (q 0)).1 n
  | 0 => rfl
  | n + 1 => by
      show (cellStep LS (cellTraj LS q c (n + 1)) (q (n + 1))).1 = _
      rw [cellTraj_shift LS q c n]
      rfl

theorem cellEv_shift (LS : Nat) (q : Nat → Bool) (c : Cell) (n : Nat) :
    cellEv LS q c (n + 1) =
      cellEv LS (fun i => q (i + 1)) (cellStep LS c (q 0)).1 n := by
  unfold cellEv
  rw [cellTraj_shift]

theorem ev_none_of_lockstate (LS : Nat) (c : Cell) (p : Bool)
    (h : c.state = KeyState.press_lockout ∨ c.state = KeyState.release_lockout) :
    (cellStep LS c p).2 = none := by
  obtain ⟨s, l⟩ := c
  rcases h with h | h <;> cases h
  · rw [cellStep_press_lockout]
  · rw [cellStep_release_lockout]

/-! ## Alternation of emitted events -/

theorem step_nextEv (LS : Nat) (c : Cell) (p : Bool) (h : Winv c) :
    ((cellStep LS c p).2 = none ∧
      nextEv (cellStep LS c p).1.state = nextEv c.state) ∨
    ((cellStep LS c p).2 = some (nextEv c.state) ∧
      nextEv (cellStep LS c p).1.state = !(nextEv c.state)) := by
  obtain ⟨s, l⟩ := c
  cases s
  · have hl : l = 0 := h (Or.inl rfl)
    subst hl
    rw [cellStep_wait_press]
    cases p <;> simp [nextEv]
  · rw [cellStep_press_lockout]
    by_cases hl : l = 1 <;> simp [nextEv, hl]
  · have hl : l = 0 := h (Or.inr rfl)
    subst hl
    rw [cellStep_wait_release]
    cases p <;> simp [nextEv]
  · rw [cellStep_release_lockout]
    by_cases hl : l = 1 <;> simp [nextEv, hl]

theorem alt_aux (LS : Nat) :
    ∀ (ps : List Bool) (c : Cell), Winv c →
      altFrom (nextEv c.state) (runEvents LS c ps) = true
  | [], _, _ => rfl
  | p :: ps, c, h => by
      have hw : Winv (cellStep LS c p).1 := winv_step LS c p h
      have ih := alt_aux LS ps (cellStep LS c p).1 hw
      rcases step_nextEv LS c p h with ⟨he, hn⟩ | ⟨he, hn⟩
      · show altFrom (nextEv c.state)
          ((cellStep LS c p).2.toList ++ runEvents LS (cellStep LS c p).1 ps) = true
        rw [he]
        simpa [hn] using ih
      · show altFrom (nextEv c.state)
          ((cellStep LS c p).2.toList ++ runEvents LS (cellStep LS c p).1 ps) = true
        rw [he]
        simp only [Option.toList_some, List.cons_append, List.nil_append, altFrom]
        rw [hn] at ih
        simpa using ih

/-! ## Claims -/

/-- Claim C1, counterexample to the claim as stated: in `wait_release` with
`pressed` true and `timeout` true, `keytest_do_row_col` does not leave
the state unchanged — the C `switch` falls through into the
`release_lockout` timeout check and moves the key to `wait_press`. -/
theorem claim1_counterexample :
    (keytest_do_row_col LOCKOUT_SCANS KeyState.wait_release 1 true true).1 =
      KeyState.wait_press ∧
    KeyState.wait_press ≠ KeyState.wait_release := by
  decide

/-- Claim C1 (amended): for every lockout length, state, counter value and
input pair, `keytest_do_row_col` computes exactly the §4.2 transition
table amended with the fall-through row: `WaitingForPress` with
`pressedNow` arms the counter, emits press and moves to `PressLockout`;
`PressLockout` moves to `WaitingForRelease` exactly on `timedOut`;
`WaitingForRelease` with `pressedNow` false arms the counter, emits
release and moves to `ReleaseLockout`, while with `pressedNow` true it
moves to `WaitingForPress` exactly when `timedOut` (emitting nothing,
counter untouched); `ReleaseLockout` moves to `WaitingForPress` exactly
on `timedOut`; every remaining combination changes nothing and emits
nothing. -/
theorem claim1_transition_table (LS : Nat) (st : KeyState) (lock : Nat)
    (pressedNow timedOut : Bool) :
    keytest_do_row_col LS st lock pressedNow timedOut =
      specTransition LS st lock pressedNow timedOut := by
  cases st <;> cases pressedNow <;> cases timedOut <;> rfl

/-- Claim C2: along every run from the initial cell state, the lockout
counter is nonzero only in the two lockout states, and while the cell
sits in a lockout state the counter never increases from one cycle to
the next. -/
theorem claim2_lockout_invariant (LS : Nat) (q : Nat → Bool) (n : Nat) :
    ((cellTraj LS q cellInit n).lockout ≠ 0 →
      (cellTraj LS q cellInit n).state = KeyState.press_lockout ∨
        (cellTraj LS q cellInit n).state = KeyState.release_lockout) ∧
    (((cellTraj LS q cellInit n).state = KeyState.press_lockout ∨
        (cellTraj LS q cellInit n).state = KeyState.release_lockout) →
      (cellTraj LS q cellInit (n + 1)).lockout ≤
        (cellTraj LS q cellInit n).lockout) := by
  have hw := winv_traj LS q cellInit winv_init n
  constructor
  · intro hne
    rcases hs : (cellTraj LS q cellInit n).state with _ | _ | _ | _
    · exact absurd (hw (Or.inl hs)) hne
    · exact Or.inl rfl
    · exact absurd (hw (Or.inr hs)) hne
    · exact Or.inr rfl
  · intro hs
    show (cellStep LS (cellTraj LS q cellInit n) (q n)).1.lockout ≤ _
    generalize cellTraj LS q cellInit n = c at hs ⊢
    obtain ⟨s, l⟩ := c
    rcases hs with hs | hs <;> cases hs
    · rw [cellStep_press_lockout]
      show l - 1 ≤ l
      omega
    · rw [cellStep_release_lockout]
      show l - 1 ≤ l
      omega

/-- Claim C3: for every lockout length, every infinite input sequence and
every time horizon, the events emitted for a cell starting from the
initial state alternate strictly between press and release, beginning
with press. -/
theorem claim3_alternation (LS : Nat) (q : Nat → Bool) (n : Nat) :
    altFrom true (runEvents LS cellInit ((List.range n).map q)) = true := by
  simpa [cellInit, nextEv] using
    alt_aux LS ((List.range n).map q) cellInit winv_init

/-- Claim C4: a cell in `WaitingForPress` with zero counter that reads
pressed on cycle 0 emits exactly one press there, and emits nothing on
any of the following `LOCKOUT_SCANS - 1` cycles whatever the raw
readings are. -/
theorem claim4_debounce_suppression (LS : Nat) (q : Nat → Bool) (c : Cell)
    (hs : c.state = KeyState.wait_press) (hl : c.lockout = 0)
    (hq : q 0 = true) :
    cellEv LS q c 0 = some true ∧
    ∀ j, 1 ≤ j → j < LS → cellEv LS q c j = none := by
  obtain ⟨s, l⟩ := c
  cases hs
  cases hl
  have h0 : cellStep LS ⟨KeyState.wait_press, 0⟩ (q 0) =
      (⟨KeyState.press_lockout, LS⟩, some true) := by
    rw [cellStep_wait_press, hq]
    simp
  have h1 : (cellStep LS ⟨KeyState.wait_press, 0⟩ (q 0)).1 =
      ⟨KeyState.press_lockout, LS⟩ := by rw [h0]
  constructor
  · show (cellStep LS ⟨KeyState.wait_press, 0⟩ (q 0)).2 = some true
    rw [h0]
  · intro j hj1 hjLS
    obtain ⟨j', rfl⟩ : ∃ j', j = j' + 1 := ⟨j - 1, by omega⟩
    rw [cellEv_shift, h1]
    unfold cellEv
    rw [traj_countdown LS (fun i => q (i + 1)) KeyState.press_lockout
      (Or.inl rfl) LS (by omega) j' (by omega)]
    exact ev_none_of_lockstate LS _ _ (Or.inl rfl)

/-- Claim C4 witness: with `LOCKOUT_SCANS = 3` and the key held, cycle 1
emits nothing. -/
theorem claim4_witness :
    cellEv 3 (fun _ => true) cellInit 1 = none :=
  (claim4_debounce_suppression 3 (fun _ => true) cellInit rfl rfl rfl).2 1
    (by decide) (by decide)

/-- Claim C5: a cell whose raw reading is pressed on every cycle emits a
single press on cycle 0 and nothing afterwards, and from cycle
`LOCKOUT_SCANS + 1` on it sits in `WaitingForRelease` with a zero
counter (so the fall-through timeout check can never fire). -/
theorem claim5_held_key (LS : Nat) (hLS : 1 ≤ LS) :
    cellEv LS (fun _ => true) cellInit 0 = some true ∧
    (∀ n, 1 ≤ n → cellEv LS (fun _ => true) cellInit n = none) ∧
    (∀ n, LS + 1 ≤ n →
      cellTraj LS (fun _ => true) cellInit n = ⟨KeyState.wait_release, 0⟩) := by
  have h0 : cellStep LS cellInit true = (⟨KeyState.press_lockout, LS⟩, some true) := by
    show cellStep LS ⟨KeyState.wait_press, 0⟩ true = _
    rw [cellStep_wait_press]
    simp
  have h1 : (cellStep LS cellInit ((fun _ : Nat => true) 0)).1 =
      ⟨KeyState.press_lockout, LS⟩ := by rw [h0]
  have hmid : ∀ n, 1 ≤ n → n ≤ LS →
      cellTraj LS (fun _ => true) cellInit n =
        ⟨KeyState.press_lockout, LS - (n - 1)⟩ := by
    intro n hn1 hnLS
    obtain ⟨n', rfl⟩ : ∃ n', n = n' + 1 := ⟨n - 1, by omega⟩
    rw [cellTraj_shift, h1,
      traj_countdown LS _ KeyState.press_lockout (Or.inl rfl) LS hLS n' (by omega)]
    simp
  have hexit : cellTraj LS (fun _ => true) cellInit (LS + 1) =
      ⟨KeyState.wait_release, 0⟩ := by
    rw [cellTraj_shift, h1,
      traj_lock_exit LS _ KeyState.press_lockout (Or.inl rfl) LS hLS]
    rfl
  have hstayWR : cellStep LS ⟨KeyState.wait_release, 0⟩ true =
      (⟨KeyState.wait_release, 0⟩, none) := by
    rw [cellStep_wait_release]
    simp
  have hstay : ∀ d, cellTraj LS (fun _ => true) cellInit (LS + 1 + d) =
      ⟨KeyState.wait_release, 0⟩ := by
    intro d
    induction d with
    | zero => exact hexit
    | succ d ih =>
        show (cellStep LS (cellTraj LS (fun _ => true) cellInit (LS + 1 + d))
          true).1 = _
        rw [ih, hstayWR]
  refine ⟨?_, ?_, ?_⟩
  · show (cellStep LS cellInit true).2 = some true
    rw [h0]
  · intro n hn
    by_cases hcaseb : n ≤ LS
    · unfold cellEv
      rw [hmid n hn hcaseb]
      exact ev_none_of_lockstate LS _ _ (Or.inl rfl)
    · obtain ⟨d, rfl⟩ : ∃ d, n = LS + 1 + d := ⟨n - (LS + 1), by omega⟩
      unfold cellEv
      rw [hstay d, hstayWR]
  · intro n hn
    obtain ⟨d, rfl⟩ : ∃ d, n = LS + 1 + d := ⟨n - (LS + 1), by omega⟩
    exact hstay d

/-- Claim C5 witness: with `LOCKOUT_SCANS = 1`, after 2 cycles of a held key
the cell rests in `WaitingForRelease` with zero counter. -/
theorem claim5_witness :
    cellTraj 1 (fun _ => true) cellInit 2 = ⟨KeyState.wait_release, 0⟩ :=
  (claim5_held_key 1 (by decide)).2.2 2 (by decide)

/-- Claim C2 witness: with `LOCKOUT_SCANS = 3` and the key held, after one
cycle the counter is nonzero and the theorem places the cell in a
lockout state. -/
theorem claim2_witness :
    (cellTraj 3 (fun _ => true) cellInit 1).state = KeyState.press_lockout ∨
    (cellTraj 3 (fun _ => true) cellInit 1).state = KeyState.release_lockout :=
  (claim2_lockout_invariant 3 (fun _ => true) 1).1 (by decide)

/-- Claim C6: along every run from the initial cell state, the lockout
counter does not increase on an emission-free cycle; on a cycle that
emits an event it becomes exactly `LOCKOUT_SCANS`; and on the cycle
that leaves `PressLockout` or `ReleaseLockout` the counter is read as
1 and ends the cycle at exactly 0. -/
theorem claim6_monotone_countdown (LS : Nat) (q : Nat → Bool) (n : Nat) :
    (cellEv LS q cellInit n = none →
      (cellTraj LS q cellInit (n + 1)).lockout ≤
        (cellTraj LS q cellInit n).lockout) ∧
    (∀ e, cellEv LS q cellInit n = some e →
      (cellTraj LS q cellInit (n + 1)).lockout = LS) ∧
    ((cellTraj LS q cellInit n).state = KeyState.press_lockout ∧
        (cellTraj LS q cellInit (n + 1)).state ≠ KeyState.press_lockout →
      (cellTraj LS q cellInit n).lockout = 1 ∧
        (cellTraj LS q cellInit (n + 1)).lockout = 0) ∧
    ((cellTraj LS q cellInit n).state = KeyState.release_lockout ∧
        (cellTraj LS q cellInit (n + 1)).state ≠ KeyState.release_lockout →
      (cellTraj LS q cellInit n).lockout = 1 ∧
        (cellTraj LS q cellInit (n + 1)).lockout = 0) := by
  have hw := winv_traj LS q cellInit winv_init n
  have hB : cellTraj LS q cellInit (n + 1) =
      (cellStep LS (cellTraj LS q cellInit n) (q n)).1 := rfl
  have hE : cellEv LS q cellInit n =
      (cellStep LS (cellTraj LS q cellInit n) (q n)).2 := rfl
  rw [hB, hE]
  generalize cellTraj LS q cellInit n = c at hw ⊢
  obtain ⟨s, l⟩ := c
  cases s
  · have hl : l = 0 := hw (Or.inl rfl)
    subst hl
    rw [cellStep_wait_press]
    cases q n <;> simp
  · rw [cellStep_press_lockout]
    by_cases hl : l = 1 <;> simp [hl]
  · have hl : l = 0 := hw (Or.inr rfl)
    subst hl
    rw [cellStep_wait_release]
    cases q n <;> simp
  · rw [cellStep_release_lockout]
    by_cases hl : l = 1 <;> simp [hl]

/-- Claim C6 witness: with `LOCKOUT_SCANS = 2` and the key held, the press on
cycle 0 arms the counter to exactly 2. -/
theorem claim6_witness :
    (cellTraj 2 (fun _ => true) cellInit 1).lockout = 2 :=
  (claim6_monotone_countdown 2 (fun _ => true) 0).2.1 true (by decide)

/-- Claim C10: when an event is emitted on a cycle with the counter at 0 (as
on every reachable emission), the cycle ends with the counter at
exactly `LOCKOUT_SCANS` (the fresh value is not decremented on the
arming cycle), the cell then stays in the entered lockout state with
counter `LOCKOUT_SCANS - j` after each of the following `j < LS`
cycles, and it leaves the lockout state — into `WaitingForRelease`
after a press, into `WaitingForPress` after a release — exactly
`LOCKOUT_SCANS` cycles after the emission, whatever the raw readings
do in between. -/
theorem claim10_edge_policy (LS : Nat) (c : Cell) (p e : Bool)
    (hLS : 1 ≤ LS) (hl : c.lockout = 0) (he : (cellStep LS c p).2 = some e) :
    (cellStep LS c p).1.lockout = LS ∧
    (∀ (q : Nat → Bool) j, 1 ≤ j → j < LS →
      cellTraj LS q (cellStep LS c p).1 j =
        ⟨(cellStep LS c p).1.state, LS - j⟩) ∧
    (∀ q : Nat → Bool,
      cellTraj LS q (cellStep LS c p).1 LS =
        ⟨if e = true then KeyState.wait_release else KeyState.wait_press, 0⟩) := by
  obtain ⟨s, l⟩ := c
  cases hl
  cases s
  · rw [cellStep_wait_press] at he ⊢
    cases p
    · simp at he
    · simp only [if_true] at he ⊢
      have he' : e = true := by simpa using he.symm
      subst he'
      refine ⟨by simp, ?_, ?_⟩
      · intro q j hj1 hjLS
        simpa using traj_countdown LS q KeyState.press_lockout (Or.inl rfl) LS
          hLS j (by omega)
      · intro q
        simpa [lockExit] using traj_lock_exit LS q KeyState.press_lockout
          (Or.inl rfl) LS hLS
  · rw [cellStep_press_lockout] at he
    simp at he
  · rw [cellStep_wait_release] at he ⊢
    cases p
    · simp only [Bool.false_eq_true, if_false] at he ⊢
      have he' : e = false := by simpa using he.symm
      subst he'
      refine ⟨by simp, ?_, ?_⟩
      · intro q j hj1 hjLS
        simpa using traj_countdown LS q KeyState.release_lockout (Or.inr rfl) LS
          hLS j (by omega)
      · intro q
        simpa [lockExit] using traj_lock_exit LS q KeyState.release_lockout
          (Or.inr rfl) LS hLS
    · simp at he
  · rw [cellStep_release_lockout] at he
    simp at he

/-- Claim C10 witness: with `LOCKOUT_SCANS = 1`, one cycle after the press
the cell has left `PressLockout` for `WaitingForRelease` with counter
0. -/
theorem claim10_witness :
    cellTraj 1 (fun _ => false) (cellStep 1 cellInit true).1 1 =
      ⟨KeyState.wait_release, 0⟩ := by
  simpa using
    (claim10_edge_policy 1 cellInit true true (by decide) rfl (by decide)).2.2
      (fun _ => false)

/-! ## The scan driver -/

theorem mem_scanPairs (c r : Nat) :
    (c, r) ∈ scanPairs ↔ c < NUM_COLUMNS ∧ r < NUM_ROWS := by
  simp only [scanPairs, List.mem_flatMap, List.mem_map, List.mem_range,
    Prod.mk.injEq]
  constructor
  · rintro ⟨a, ha, b, hb, rfl, rfl⟩
    exact ⟨ha, hb⟩
  · rintro ⟨hc, hr⟩
    exact ⟨c, hc, r, hr, rfl, rfl⟩

theorem nodup_scanPairs : scanPairs.Nodup := by decide

theorem runPairs_fst (LS : Nat) (v : Nat → Nat → Bool) :
    ∀ (ps : List (Nat × Nat)), ps.Nodup → ∀ (g : Grid) (r c : Nat),
      (runPairs LS v ps g).1 r c =
        if (c, r) ∈ ps then (cellStep LS (g r c) (!(v r c))).1 else g r c
  | [], _, g, r, c => by simp [runPairs]
  | p :: ps, h, g, r, c => by
      obtain ⟨pc, pr⟩ := p
      obtain ⟨hp, hps⟩ := List.nodup_cons.mp h
      show (runPairs LS v ps
        (updateGrid g pr pc (cellStep LS (g pr pc) (!(v pr pc))).1)).1 r c = _
      rw [runPairs_fst LS v ps hps]
      by_cases hrc : r = pr ∧ c = pc
      · obtain ⟨rfl, rfl⟩ := hrc
        have hnotin : (c, r) ∉ ps := hp
        simp [hnotin, updateGrid]
      · have hne : (c, r) ≠ (pc, pr) := by
          intro hcontra
          exact hrc ⟨congrArg Prod.snd hcontra, congrArg Prod.fst hcontra⟩
        have hupd : updateGrid g pr pc (cellStep LS (g pr pc) (!(v pr pc))).1 r c =
            g r c := by simp [updateGrid, hrc]
        rw [hupd]
        simp [List.mem_cons, hne]

theorem runPairs_snd (LS : Nat) (v : Nat → Nat → Bool) :
    ∀ (ps : List (Nat × Nat)), ps.Nodup → ∀ (g : Grid),
      (runPairs LS v ps g).2 =
        ps.filterMap fun p =>
          ((cellStep LS (g p.2 p.1) (!(v p.2 p.1))).2).map fun b =>
            (keysyms p.2 p.1, b)
  | [], _, _ => rfl
  | p :: ps, h, g => by
      obtain ⟨pc, pr⟩ := p
      obtain ⟨hp, hps⟩ := List.nodup_cons.mp h
      show ((cellStep LS (g pr pc) (!(v pr pc))).2.map fun b =>
          (keysyms pr pc, b)).toList ++
        (runPairs LS v ps
          (updateGrid g pr pc (cellStep LS (g pr pc) (!(v pr pc))).1)).2 = _
      rw [runPairs_snd LS v ps hps]
      have htail : ∀ x ∈ ps,
          ((cellStep LS
            (updateGrid g pr pc (cellStep LS (g pr pc) (!(v pr pc))).1 x.2 x.1)
            (!(v x.2 x.1))).2.map fun b => (keysyms x.2 x.1, b)) =
          ((cellStep LS (g x.2 x.1) (!(v x.2 x.1))).2.map fun b =>
            (keysyms x.2 x.1, b)) := by
        intro x hx
        have hxne : x ≠ (pc, pr) := fun hcontra => hp (hcontra ▸ hx)
        have : ¬(x.2 = pr ∧ x.1 = pc) := by
          intro ⟨h2, h1⟩
          exact hxne (Prod.ext h1 h2)
        rw [show updateGrid g pr pc (cellStep LS (g pr pc) (!(v pr pc))).1 x.2 x.1 =
          g x.2 x.1 from by simp [updateGrid, this]]
      rw [List.filterMap_congr htail, List.filterMap_cons]
      rcases ho : (cellStep LS (g pr pc) (!(v pr pc))).2 with _ | b <;> simp [ho]

theorem loopStep_fst (LS : Nat) (g : Grid) (v : Nat → Nat → Bool) (r c : Nat)
    (hr : r < NUM_ROWS) (hc : c < NUM_COLUMNS) :
    (loopStep LS g v).1 r c = (cellStep LS (g r c) (!(v r c))).1 := by
  rw [loopStep, runPairs_fst LS v scanPairs nodup_scanPairs]
  simp [mem_scanPairs, hr, hc]

/-- Claim C7: Scenario A on the full 4x4 driver with `LOCKOUT_SCANS = 3`:
feeding cell (0,0) the pressed sequence
[true, false, true, false, false, false, false] (all other cells up)
produces exactly the per-cycle event lists
`('1', press)` on cycle 0 and `('1', release)` on cycle 4, nothing on
cycles 1-3 and 5-6. -/
theorem claim7_scenarioA :
    runLoop 3 gridInit scenarioAframes =
      [[('1', true)], [], [], [], [('1', false)], [], []] := by
  decide

/-- Claim C8: a cell of the grid depends only on its own initial value and
its own raw-reading sequence: two runs of the scan driver whose initial
grids and per-cycle raw readings agree at cell (r, c) — the readings
fed to every other cell being arbitrary — agree at (r, c) after every
number of full scan cycles. -/
theorem claim8_independence (LS : Nat) (vs vs' : Nat → Nat → Nat → Bool)
    (g g' : Grid) (r c : Nat) (hr : r < NUM_ROWS) (hc : c < NUM_COLUMNS)
    (hg : g r c = g' r c) (hv : ∀ n, vs n r c = vs' n r c) :
    ∀ n, gridTraj LS vs g n r c = gridTraj LS vs' g' n r c
  | 0 => hg
  | n + 1 => by
      show (loopStep LS (gridTraj LS vs g n) (vs n)).1 r c =
        (loopStep LS (gridTraj LS vs' g' n) (vs' n)).1 r c
      rw [loopStep_fst LS _ _ r c hr hc, loopStep_fst LS _ _ r c hr hc,
        claim8_independence LS vs vs' g g' r c hr hc hg hv n, hv n]

/-- Claim C8 witness: cell (0,0) evolves identically under all-pressed
readings and under readings that press only cell (0,0). -/
theorem claim8_witness :
    gridTraj 3 (fun _ _ _ => true) gridInit 2 0 0 =
      gridTraj 3 (fun _ r c => decide (r = 0 ∧ c = 0)) gridInit 2 0 0 :=
  claim8_independence 3 (fun _ _ _ => true)
    (fun _ r c => decide (r = 0 ∧ c = 0)) gridInit gridInit 0 0
    (by decide) (by decide) rfl (fun _ => rfl) 2

/-- Claim C9: one invocation of `loop()` visits every (column, row) pair
exactly once, in the fixed column-major order (all rows of column 0,
then column 1, ...), and the events of one scan cycle reach the sink
in exactly that visit order. -/
theorem claim9_scan_order :
    scanPairs =
      [(0, 0), (0, 1), (0, 2), (0, 3),
       (1, 0), (1, 1), (1, 2), (1, 3),
       (2, 0), (2, 1), (2, 2), (2, 3),
       (3, 0), (3, 1), (3, 2), (3, 3)] ∧
    (∀ c r : Nat, c < NUM_COLUMNS → r < NUM_ROWS →
      scanPairs.count (c, r) = 1) ∧
    (∀ (LS : Nat) (g : Grid) (v : Nat → Nat → Bool),
      (loopStep LS g v).2 =
        scanPairs.filterMap fun p =>
          ((cellStep LS (g p.2 p.1) (!(v p.2 p.1))).2).map fun b =>
            (keysyms p.2 p.1, b)) := by
  refine ⟨by decide, ?_, ?_⟩
  · intro c r hc hr
    have hc4 : c < 4 := hc
    have hr4 : r < 4 := hr
    interval_cases c <;> interval_cases r <;> decide
  · intro LS g v
    exact runPairs_snd LS v scanPairs nodup_scanPairs g

/-- Claim C9 witness: cell (0,0) is visited exactly once per scan cycle. -/
theorem claim9_witness : scanPairs.count (0, 0) = 1 :=
  claim9_scan_order.2.1 0 0 (by decide) (by decide)

end KeyTest
